import Mathlib

set_option maxRecDepth 100000
set_option maxHeartbeats 2000000

/-!
Shallow embedding of the forecast-aggregation core of pysealevel
(src/pysealevel/__init__.py): the functions _get_all_forecast_from_api and
_get_forecast, together with the record type they build.

Modelling conventions:
* Python floats are modelled as exact rationals (ℚ); Python ints as ℤ/ℕ.
* Python round (round-half-to-even, the documented semantics of builtin
  round) is modelled by pyRound / pyRoundDigits on ℚ.
* datetime values are modelled by a Timestamp structure; datetime
  subtraction followed by .seconds is modelled by tdSeconds, using the
  documented timedelta normalisation (seconds component in [0, 86400)).
* Python exceptions (KeyError on api_result access, unbound local name on
  a never-assigned scratch variable, IndexError on values[0]) are modelled
  by an Except monad with an explicit error kind.
* The OrderedDict keyed by valid_time.day is modelled as an association
  list in insertion order (odAppend).
* The single mutation in the source (_get_forecast overwrites fields of
  forecast, which in the no-noon fallback branch aliases the stored list
  element forecasts_day[0]) is modelled explicitly: buildOutput gives the
  returned list, and aggGroupAfter gives the stored day group as it stands
  after the pass, with the aliased head overwritten in the fallback case.
-/

/-- Error kinds for the Python exceptions the transform can raise. -/
inductive PyError where
  | keyError
  | nameError
  | indexError
deriving DecidableEq, Repr

/-- UTC timestamp with second precision, as parsed by
datetime.strptime(s, "%Y-%m-%dT%H:%M:%SZ"). -/
structure Timestamp where
  year : ℕ
  month : ℕ
  day : ℕ
  hour : ℕ
  minute : ℕ
  second : ℕ
deriving DecidableEq, Repr

/-- Days since 1970-01-01 of a calendar date (proleptic Gregorian), the
standard civil-from-days ordinal used by datetime date arithmetic. -/
def daysFromCivil (ts : Timestamp) : ℤ :=
  let y : ℤ := if ts.month ≤ 2 then (ts.year : ℤ) - 1 else (ts.year : ℤ)
  let era : ℤ := Int.fdiv y 400
  let yoe : ℤ := y - era * 400
  let mp : ℕ := if 2 < ts.month then ts.month - 3 else ts.month + 9
  let doy : ℤ := ((153 * mp + 2) / 5 : ℕ) + (ts.day : ℤ) - 1
  let doe : ℤ := yoe * 365 + Int.fdiv yoe 4 - Int.fdiv yoe 100 + doy
  era * 146097 + doe - 719468

/-- Seconds since the epoch of a Timestamp. -/
def epochSeconds (ts : Timestamp) : ℤ :=
  86400 * daysFromCivil ts + 3600 * (ts.hour : ℤ) + 60 * (ts.minute : ℤ) + (ts.second : ℤ)

/-- Model of (a - b).seconds for Python datetimes a, b: the seconds
component of the normalised timedelta, i.e. the total difference in
seconds taken modulo 86400 (floor convention, always in [0, 86400)).
Note this is the .seconds attribute, not total_seconds(): whole days of
the difference are discarded. -/
def tdSeconds (a b : Timestamp) : ℤ :=
  (epochSeconds a - epochSeconds b).emod 86400

/-- Python round(q) with no digits argument: round half to even, as an
integer. -/
def pyRound (q : ℚ) : ℤ :=
  let f := Rat.floor q
  let r := q - (f : ℚ)
  if r < 1/2 then f
  else if 1/2 < r then f + 1
  else if f % 2 = 0 then f else f + 1

/-- Python round(q, n): round half to even at n decimal digits. -/
def pyRoundDigits (q : ℚ) (n : ℕ) : ℚ :=
  (pyRound (q * 10 ^ n) : ℚ) / 10 ^ n

/-- Python int(x) applied to a float: truncation toward zero. -/
def pyTrunc (q : ℚ) : ℤ :=
  q.num.tdiv (q.den : ℤ)

/-- One element of an entry's parameters list: a name and a values
sequence whose first element is the value to extract. -/
structure Param where
  name : String
  values : List ℚ
deriving DecidableEq, Repr

/-- One timeSeries entry: a (parsed) validTime and its parameters. -/
structure ApiEntry where
  validTime : Timestamp
  parameters : List Param
deriving DecidableEq, Repr

/-- The api_result dict as far as the transform reads it: timeSeries is
none when the key is absent (access then raises KeyError). -/
structure ApiResult where
  timeSeries : Option (List ApiEntry)
deriving DecidableEq, Repr

/-- Modelled from the spec: the SmhiForecast record class is referenced but
not defined under src/; its field list is the RawSample record of the
spec, in the positional order of the constructor call in
_get_all_forecast_from_api (temperature, temperature_max, temperature_min,
humidity, pressure, thunder, cloudiness, precipitation category, wind
direction, wind speed, horizontal visibility, wind gust, mean
precipitation, total precipitation, symbol, valid time). -/
structure SmhiForecast where
  temperature : ℤ
  temperature_max : ℤ
  temperature_min : ℤ
  humidity : ℤ
  pressure : ℤ
  thunder : ℤ
  cloudiness : ℤ
  precipitation_category : ℤ
  wind_direction : ℤ
  wind_speed : ℚ
  horizontal_visibility : ℚ
  wind_gust : ℚ
  mean_precipitation : ℚ
  total_precipitation : ℚ
  symbol : ℤ
  valid_time : Timestamp
deriving DecidableEq, Repr

/-- The scratch variables of the per-entry parameter loop in
_get_all_forecast_from_api. They are function-local in Python, so a value
assigned for one entry is still visible for later entries (none models a
name that has never been assigned, whose read raises an unbound-name
error). -/
structure Scratch where
  temperature : Option ℚ
  humidity : Option ℤ
  pressure : Option ℤ
  thunder : Option ℤ
  cloudiness : Option ℤ
  symbol : Option ℤ
  precipitation : Option ℤ
  mean_precipitation : Option ℚ
  wind_speed : Option ℚ
  wind_direction : Option ℤ
  horizontal_visibility : Option ℚ
  wind_gust : Option ℚ
deriving DecidableEq, Repr

/-- Scratch state before the first entry: nothing assigned yet. -/
def initScratch : Scratch :=
  ⟨none, none, none, none, none, none, none, none, none, none, none, none⟩

/-- Model of param["values"][0]: IndexError on an empty values list. -/
def headVal (p : Param) : Except PyError ℚ :=
  match p.values with
  | [] => .error .indexError
  | v :: _ => .ok v

/-- One iteration of the inner parameter loop: the if/elif chain on
param["name"]. Unrecognised names fall through without touching the
scratch state. -/
def updateScratch (s : Scratch) (p : Param) : Except PyError Scratch :=
  if p.name = "t" then
    (headVal p).map fun v => { s with temperature := some v }
  else if p.name = "r" then
    (headVal p).map fun v => { s with humidity := some (pyTrunc v) }
  else if p.name = "msl" then
    (headVal p).map fun v => { s with pressure := some (pyTrunc v) }
  else if p.name = "tstm" then
    (headVal p).map fun v => { s with thunder := some (pyTrunc v) }
  else if p.name = "tcc_mean" then
    (headVal p).map fun v =>
      let octa := pyTrunc v
      if 0 ≤ octa ∧ octa ≤ 8 then
        { s with cloudiness := some (pyRound ((100 * octa : ℤ) / (8 : ℚ))) }
      else
        { s with cloudiness := some 100 }
  else if p.name = "Wsymb2" then
    (headVal p).map fun v => { s with symbol := some (pyTrunc v) }
  else if p.name = "pcat" then
    (headVal p).map fun v => { s with precipitation := some (pyTrunc v) }
  else if p.name = "pmean" then
    (headVal p).map fun v => { s with mean_precipitation := some v }
  else if p.name = "ws" then
    (headVal p).map fun v => { s with wind_speed := some v }
  else if p.name = "wd" then
    (headVal p).map fun v => { s with wind_direction := some (pyTrunc v) }
  else if p.name = "vis" then
    (headVal p).map fun v => { s with horizontal_visibility := some v }
  else if p.name = "gust" then
    (headVal p).map fun v => { s with wind_gust := some v }
  else
    .ok s

/-- The values of all twelve scratch variables, read after an entry's
parameter loop has run. -/
structure ScratchVals where
  t : ℚ
  hu : ℤ
  pr : ℤ
  th : ℤ
  cl : ℤ
  sy : ℤ
  pc : ℤ
  pm : ℚ
  ws : ℚ
  wd : ℤ
  vi : ℚ
  gu : ℚ
deriving DecidableEq, Repr

/-- Reading every scratch variable at once; none when at least one has
never been assigned (the read would raise an unbound-name error). -/
def readScratch (s : Scratch) : Option ScratchVals :=
  match s.temperature, s.humidity, s.pressure, s.thunder, s.cloudiness,
        s.symbol, s.precipitation, s.mean_precipitation, s.wind_speed,
        s.wind_direction, s.horizontal_visibility, s.wind_gust with
  | some t, some hu, some pr, some th, some cl, some sy, some pc, some pm,
    some ws, some wd, some vi, some gu =>
      some ⟨t, hu, pr, th, cl, sy, pc, pm, ws, wd, vi, gu⟩
  | _, _, _, _, _, _, _, _, _, _, _, _ => none

/-- Hours since the previous entry: total_hours_last_forecast is left at
its carried value when last_time is None, else recomputed as
(valid_time - last_time).seconds / 60 / 60. -/
def hoursSince (carried : ℚ) (lastTime : Option Timestamp) (vt : Timestamp) : ℚ :=
  match lastTime with
  | none => carried
  | some lt => ((tdSeconds vt lt : ℚ)) / 60 / 60

/-- The SmhiForecast record constructed for one entry: the rounded
temperature is used for all three temperature fields, mean precipitation
is stored rounded to one decimal, and total precipitation is
round(mean_precipitation * hours, 2). -/
def mkForecast (v : ScratchVals) (vt : Timestamp) (hrs : ℚ) : SmhiForecast :=
  let roundedTemp := pyRound v.t
  { temperature := roundedTemp
    temperature_max := roundedTemp
    temperature_min := roundedTemp
    humidity := v.hu
    pressure := v.pr
    thunder := v.th
    cloudiness := v.cl
    precipitation_category := v.pc
    wind_direction := v.wd
    wind_speed := v.ws
    horizontal_visibility := v.vi
    wind_gust := v.gu
    mean_precipitation := pyRoundDigits v.pm 1
    total_precipitation := pyRoundDigits (v.pm * hrs) 2
    symbol := v.sy
    valid_time := vt }

/-- One iteration of the outer entry loop: run the parameter loop, read
the scratch variables, compute the hours window and build the record.
Returns the record, the scratch state and the hours value carried to the
next iteration. -/
def processOne (s : Scratch) (carried : ℚ) (lastTime : Option Timestamp)
    (e : ApiEntry) : Except PyError (SmhiForecast × Scratch × ℚ) :=
  match e.parameters.foldlM updateScratch s with
  | .error err => .error err
  | .ok s2 =>
    match readScratch s2 with
    | none => .error .nameError
    | some v =>
      let hrs := hoursSince carried lastTime e.validTime
      .ok (mkForecast v e.validTime hrs, s2, hrs)

/-- Appending one record under its day key: OrderedDict insertion order
for a fresh key, append at the end of the existing list otherwise. -/
def odAppend (od : List (ℕ × List SmhiForecast)) (day : ℕ) (f : SmhiForecast) :
    List (ℕ × List SmhiForecast) :=
  match od with
  | [] => [(day, [f])]
  | (d, fs) :: rest =>
    if d = day then (d, fs ++ [f]) :: rest
    else (d, fs) :: odAppend rest day f

/-- The outer entry loop of _get_all_forecast_from_api. -/
def processEntries : List ApiEntry → Scratch → ℚ → Option Timestamp →
    List (ℕ × List SmhiForecast) → Except PyError (List (ℕ × List SmhiForecast))
  | [], _, _, _, od => .ok od
  | e :: rest, s, carried, lastTime, od =>
    match processOne s carried lastTime e with
    | .error err => .error err
    | .ok (f, s2, hrs) =>
      processEntries rest s2 hrs (some e.validTime) (odAppend od e.validTime.day f)

/-- The function _get_all_forecast_from_api: the OrderedDict of day
groups, or the Python exception the loop raises. Reading a missing
timeSeries key raises KeyError; an empty timeSeries runs the loop zero
times and yields an empty dict. -/
def _get_all_forecast_from_api (r : ApiResult) :
    Except PyError (List (ℕ × List SmhiForecast)) :=
  match r.timeSeries with
  | none => .error .keyError
  | some ts => processEntries ts initScratch 1 none []

/-- The running maximum temperature of the per-day loop in _get_forecast,
started at the sentinel -100.0. -/
def dayTempMax (fs : List SmhiForecast) : ℤ :=
  fs.foldl (fun a f => if a < f.temperature then f.temperature else a) (-100)

/-- The running minimum temperature of the per-day loop in _get_forecast,
started at the sentinel 100.0. -/
def dayTempMin (fs : List SmhiForecast) : ℤ :=
  fs.foldl (fun a f => if f.temperature < a then f.temperature else a) 100

/-- The running total precipitation of the per-day loop. -/
def dayTotalPrecip (fs : List SmhiForecast) : ℚ :=
  fs.foldl (fun a f => a + f.total_precipitation) 0

/-- The forecast variable after the per-day loop: overwritten by a deep
copy on every entry whose hour is 12, so it ends as the last such entry;
none when the day has no hour-12 entry. -/
def pickNoon (fs : List SmhiForecast) : Option SmhiForecast :=
  fs.foldl (fun acc f => if f.valid_time.hour = 12 then some f else acc) none

/-- The four assignments that overwrite the representative's aggregate
fields after the day scan. -/
def applyAgg (f : SmhiForecast) (tmax tmin : ℤ) (total : ℚ) : SmhiForecast :=
  { f with
    temperature_max := tmax
    temperature_min := tmin
    total_precipitation := total
    mean_precipitation := total / 24 }

/-- The records the day-loop body appends to forecasts for one day group:
a deep copy of the day's first record when this is the first day, then
the aggregated representative (the last hour-12 record, deep-copied, or
else the day's first record itself). An empty group never occurs: every
stored group is created with one element. -/
def aggOut (first : Bool) (fs : List SmhiForecast) : List SmhiForecast :=
  match fs with
  | [] => []
  | f0 :: rest =>
    let pre := if first then [f0] else []
    let tmax := dayTempMax (f0 :: rest)
    let tmin := dayTempMin (f0 :: rest)
    let total := dayTotalPrecip (f0 :: rest)
    match pickNoon (f0 :: rest) with
    | some noon => pre ++ [applyAgg noon tmax tmin total]
    | none => pre ++ [applyAgg f0 tmax tmin total]

/-- The stored day group as it stands after the day-loop body ran on it.
When an hour-12 record exists the representative is a deep copy and the
group is untouched; otherwise forecast aliases forecasts_day[0] and the
four aggregate-field assignments write through to the stored head. -/
def aggGroupAfter (fs : List SmhiForecast) : List SmhiForecast :=
  match fs with
  | [] => []
  | f0 :: rest =>
    match pickNoon (f0 :: rest) with
    | some _ => f0 :: rest
    | none =>
      applyAgg f0 (dayTempMax (f0 :: rest)) (dayTempMin (f0 :: rest))
        (dayTotalPrecip (f0 :: rest)) :: rest

/-- The day dict after the whole _get_forecast pass. -/
def groupsAfter (od : List (ℕ × List SmhiForecast)) : List (ℕ × List SmhiForecast) :=
  od.map fun g => (g.1, aggGroupAfter g.2)

/-- The forecasts list built by the day loop of _get_forecast; the Bool
tracks day_nr == 1. -/
def buildOutput : Bool → List (ℕ × List SmhiForecast) → List SmhiForecast
  | _, [] => []
  | first, (_, fs) :: rest => aggOut first fs ++ buildOutput false rest

/-- The function _get_forecast: the day dict of _get_all_forecast_from_api
folded into the output list. -/
def _get_forecast (r : ApiResult) : Except PyError (List SmhiForecast) :=
  match _get_all_forecast_from_api r with
  | .error err => .error err
  | .ok od => .ok (buildOutput true od)

/-- The aggregated representative of one nonempty day group, as a value:
the last hour-12 record if any, else the day's first record, with the
four aggregate fields overwritten. -/
def dayRep (f0 : SmhiForecast) (rest : List SmhiForecast) : SmhiForecast :=
  applyAgg ((pickNoon (f0 :: rest)).getD f0)
    (dayTempMax (f0 :: rest)) (dayTempMin (f0 :: rest)) (dayTotalPrecip (f0 :: rest))


/-- Spec-language counterpart of pickNoon: the records of the group whose
validTime hour equals 12, in group order. -/
def noonEntries : List SmhiForecast → List SmhiForecast
  | [] => []
  | f :: fs => if f.valid_time.hour = 12 then f :: noonEntries fs else noonEntries fs

/-- Spec-language form of the cloudiness table row: percent from octas,
round(100 * octa / 8) inside the range 0..8, the fixed fallback 100
outside it. -/
def specCloudiness (octa : ℤ) : ℤ :=
  if 0 ≤ octa ∧ octa ≤ 8 then pyRound (((100 * octa : ℤ) : ℚ) / 8) else 100

theorem pyTrunc_intCast (n : ℤ) : pyTrunc (n : ℚ) = n := by
  simp [pyTrunc, Rat.num_intCast, Rat.den_intCast, Int.tdiv_one]

theorem getLast?_cons_or {α : Type} (a : α) (l : List α) :
    (a :: l).getLast? = (l.getLast?).or (some a) := by
  cases l with
  | nil => simp
  | cons b l' =>
    rw [List.getLast?_cons_cons]
    cases h : (b :: l').getLast? with
    | none => simp [List.getLast?_eq_none_iff] at h
    | some x => simp [Option.or]

theorem getLast?_mem_self {α : Type} {l : List α} {x : α}
    (h : l.getLast? = some x) : x ∈ l := by
  induction l generalizing x with
  | nil => simp at h
  | cons a l ih =>
    rw [getLast?_cons_or] at h
    cases hl : l.getLast? with
    | none => rw [hl] at h; simp [Option.or] at h; simp [h]
    | some y =>
      rw [hl] at h; simp [Option.or] at h
      rw [h] at hl
      exact List.mem_cons_of_mem a (ih hl)

theorem mem_noonEntries {fs : List SmhiForecast} {x : SmhiForecast} :
    x ∈ noonEntries fs ↔ x ∈ fs ∧ x.valid_time.hour = 12 := by
  induction fs with
  | nil => simp [noonEntries]
  | cons g fs ih =>
    by_cases h : g.valid_time.hour = 12
    · simp only [noonEntries, if_pos h, List.mem_cons, ih]
      constructor
      · rintro (rfl | ⟨hm, h12⟩)
        · exact ⟨Or.inl rfl, h⟩
        · exact ⟨Or.inr hm, h12⟩
      · rintro ⟨rfl | hm, h12⟩
        · exact Or.inl rfl
        · exact Or.inr ⟨hm, h12⟩
    · simp only [noonEntries, if_neg h, ih, List.mem_cons]
      constructor
      · rintro ⟨hm, h12⟩
        exact ⟨Or.inr hm, h12⟩
      · rintro ⟨rfl | hm, h12⟩
        · exact absurd h12 h
        · exact ⟨hm, h12⟩

theorem pickNoon_loop (fs : List SmhiForecast) (acc : Option SmhiForecast) :
    fs.foldl (fun a f => if f.valid_time.hour = 12 then some f else a) acc =
      ((noonEntries fs).getLast?).or acc := by
  induction fs generalizing acc with
  | nil => simp [noonEntries, Option.or]
  | cons g fs ih =>
    simp only [List.foldl_cons]
    by_cases h : g.valid_time.hour = 12
    · rw [if_pos h, ih, noonEntries, if_pos h, getLast?_cons_or]
      cases hx : (noonEntries fs).getLast? <;> simp [Option.or]
    · rw [if_neg h, ih, noonEntries, if_neg h]

theorem pickNoon_eq_getLast (fs : List SmhiForecast) :
    pickNoon fs = (noonEntries fs).getLast? := by
  rw [pickNoon, pickNoon_loop]
  cases h : (noonEntries fs).getLast? <;> simp [Option.or]

theorem pickNoon_eq_none_iff (fs : List SmhiForecast) :
    pickNoon fs = none ↔ ∀ f ∈ fs, f.valid_time.hour ≠ 12 := by
  rw [pickNoon_eq_getLast, List.getLast?_eq_none_iff]
  constructor
  · intro h f hf h12
    have hmem : f ∈ noonEntries fs := mem_noonEntries.mpr ⟨hf, h12⟩
    rw [h] at hmem
    exact absurd hmem (List.not_mem_nil f)
  · intro h
    rcases hne : noonEntries fs with _ | ⟨x, xs⟩
    · rfl
    · have hx : x ∈ noonEntries fs := by rw [hne]; exact List.mem_cons_self x xs
      rw [mem_noonEntries] at hx
      exact absurd hx.2 (h x hx.1)

theorem pickNoon_mem {fs : List SmhiForecast} {x : SmhiForecast}
    (h : pickNoon fs = some x) : x ∈ fs := by
  rw [pickNoon_eq_getLast] at h
  exact (mem_noonEntries.mp (getLast?_mem_self h)).1

/-- C1 counterexample: on the input whose timeSeries is present but empty,
the transform does not fail at all; it silently returns the empty output
sequence, contradicting both halves of the claim. -/
theorem C1_counterexample : _get_forecast ⟨some []⟩ = Except.ok [] := rfl

/-- C1 (corrected): when the timeSeries field is absent the transform does
fail, with a key-lookup error; but when timeSeries is present and empty
the entry loop runs zero times and the transform silently returns the
empty output sequence instead of failing. -/
theorem C1_empty_timeSeries (r : ApiResult) :
    (r.timeSeries = none → _get_forecast r = .error .keyError) ∧
    (r.timeSeries = some [] → _get_forecast r = .ok []) := by
  constructor
  · intro h
    simp [_get_forecast, _get_all_forecast_from_api, h]
  · intro h
    simp [_get_forecast, _get_all_forecast_from_api, h, processEntries, buildOutput]

/-- Witness for C1: both branches of the corrected statement at concrete
inputs. -/
theorem C1_empty_timeSeries_witness :
    _get_forecast ⟨none⟩ = .error .keyError ∧ _get_forecast ⟨some []⟩ = .ok [] :=
  ⟨(C1_empty_timeSeries ⟨none⟩).1 rfl, (C1_empty_timeSeries ⟨some []⟩).2 rfl⟩

/-- C9 (confirmed): a tcc_mean parameter with first value octa stores
cloudiness round(100 * octa / 8) when 0 <= octa <= 8 and exactly 100
otherwise; in particular octa = 0, 4, 8 give 0, 50, 100 and the
out-of-range octa = 9 and octa = -1 give 100. -/
theorem C9_cloudiness :
    (∀ (s : Scratch) (octa : ℤ) (vs : List ℚ),
      updateScratch s ⟨"tcc_mean", (octa : ℚ) :: vs⟩ =
        .ok { s with cloudiness := some (specCloudiness octa) }) ∧
    specCloudiness 0 = 0 ∧
    specCloudiness 4 = 50 ∧
    specCloudiness 8 = 100 ∧
    specCloudiness 9 = 100 ∧
    specCloudiness (-1) = 100 := by
  refine ⟨?_, ?_, ?_, ?_, ?_, ?_⟩
  · intro s octa vs
    simp [updateScratch, headVal, Except.map, pyTrunc_intCast, specCloudiness]
    split <;> simp_all
  · with_unfolding_all decide
  · with_unfolding_all decide
  · with_unfolding_all decide
  · with_unfolding_all decide
  · with_unfolding_all decide

theorem aggOut_cons (first : Bool) (f0 : SmhiForecast) (rest : List SmhiForecast) :
    aggOut first (f0 :: rest) = (if first then [f0] else []) ++ [dayRep f0 rest] := by
  rw [aggOut, dayRep]
  cases h : pickNoon (f0 :: rest) <;> simp [h]

/-- Test fixture: a parameters list carrying all twelve recognised names
with the given first values. -/
def mkAllParams (t r msl tstm tcc wsymb pcat pmean ws wd vis gust : ℚ) : List Param :=
  [⟨"t", [t]⟩, ⟨"r", [r]⟩, ⟨"msl", [msl]⟩, ⟨"tstm", [tstm]⟩,
   ⟨"tcc_mean", [tcc]⟩, ⟨"Wsymb2", [wsymb]⟩, ⟨"pcat", [pcat]⟩,
   ⟨"pmean", [pmean]⟩, ⟨"ws", [ws]⟩, ⟨"wd", [wd]⟩, ⟨"vis", [vis]⟩,
   ⟨"gust", [gust]⟩]

/-- Test fixture: the day groups a run returns, empty on error. -/
def okGroups (r : ApiResult) : List (ℕ × List SmhiForecast) :=
  match _get_all_forecast_from_api r with
  | .ok od => od
  | .error _ => []

/-- Test fixture: the output list a run returns, empty on error. -/
def okOutput (r : ApiResult) : List SmhiForecast :=
  match _get_forecast r with
  | .ok out => out
  | .error _ => []

/-- Test fixture for C3: one day with two hour-12 records, at 12:00 with
temperature 1.4 and at 12:30 with temperature 3.6. -/
def inputC3 : ApiResult :=
  ⟨some [⟨⟨2025, 1, 1, 12, 0, 0⟩, mkAllParams (14/10) 80 1000 5 4 3 1 1 (5/2) 180 10 5⟩,
         ⟨⟨2025, 1, 1, 12, 30, 0⟩, mkAllParams (36/10) 80 1000 5 4 3 1 1 (5/2) 180 10 5⟩]⟩

/-- Test fixture: the single day group parsed from inputC3. -/
def groupC3 : List SmhiForecast :=
  ((okGroups inputC3).head?.map Prod.snd).getD []

/-- C3 counterexample: in inputC3 the day group holds two hour-12 records,
at minute 0 and minute 30. The claim picks the first of them (minute 0),
but the transform's aggregated representative is the minute-30 record:
the output minutes are [0, 30] (prepended current copy, then the
representative), and its temperatures are [1, 4] (the representative
carries the 12:30 temperature), while the first hour-12 entry of the
group sits at minute 0. -/
theorem C3_counterexample :
    ((_get_forecast inputC3).toOption.map fun l => l.map fun f =>
      (f.valid_time.minute, f.temperature)) = some [(0, 1), (30, 4)] ∧
    (noonEntries groupC3).head?.map (fun f => f.valid_time.minute) = some 0 := by
  constructor
  · with_unfolding_all decide
  · with_unfolding_all decide

/-- C3 (corrected): for every nonempty day group, the aggregated
representative appended to the output is the LAST entry of the group
whose validTime hour equals 12 (each hour-12 entry overwrites the
previous pick), with the aggregate fields overwritten; if no entry of the
group has hour 12 it is the day's first entry. -/
theorem C3_representative (first : Bool) (f0 : SmhiForecast) (rest : List SmhiForecast) :
    (aggOut first (f0 :: rest)).getLast? =
      some (applyAgg (((noonEntries (f0 :: rest)).getLast?).getD f0)
        (dayTempMax (f0 :: rest)) (dayTempMin (f0 :: rest)) (dayTotalPrecip (f0 :: rest))) := by
  rw [aggOut_cons, dayRep, pickNoon_eq_getLast, List.getLast?_append]
  simp

/-- Test fixture for C4: a single record whose hour is not 12 and whose
stored mean precipitation (1.0) differs from total/24. -/
def inputC4 : ApiResult :=
  ⟨some [⟨⟨2025, 1, 1, 6, 0, 0⟩, mkAllParams (14/10) 80 1000 5 4 3 1 1 (5/2) 180 10 5⟩]⟩

/-- Test fixture: the day groups parsed from inputC4. -/
def odC4 : List (ℕ × List SmhiForecast) := okGroups inputC4

/-- C4 counterexample: for inputC4 (its only day group has no hour-12
record) the aggregation pass mutates the stored raw sample: the day dict
after _get_forecast differs from the dict before it, because the
representative aliases the day's first stored sample and the aggregate
overwrites write through to it. -/
theorem C4_counterexample :
    _get_all_forecast_from_api inputC4 = .ok odC4 ∧ groupsAfter odC4 ≠ odC4 := by
  constructor
  · with_unfolding_all rfl
  · with_unfolding_all decide

/-- C4 (corrected): when a day group contains an hour-12 entry the
representative is a deep copy and every raw sample stored in the group is
left unchanged by the aggregate-field overwrites; but when the group has
no hour-12 entry the representative aliases the day's first stored
sample, and the overwrites mutate that stored sample in place (the other
samples stay unchanged). -/
theorem C4_representative_alias (f0 : SmhiForecast) (rest : List SmhiForecast) :
    ((∃ f ∈ f0 :: rest, f.valid_time.hour = 12) → aggGroupAfter (f0 :: rest) = f0 :: rest) ∧
    ((∀ f ∈ f0 :: rest, f.valid_time.hour ≠ 12) →
      aggGroupAfter (f0 :: rest) =
        applyAgg f0 (dayTempMax (f0 :: rest)) (dayTempMin (f0 :: rest))
          (dayTotalPrecip (f0 :: rest)) :: rest) := by
  constructor
  · rintro ⟨f, hf, h12⟩
    rw [aggGroupAfter]
    cases h : pickNoon (f0 :: rest) with
    | none => exact absurd h12 ((pickNoon_eq_none_iff _).mp h f hf)
    | some x => rfl
  · intro h
    rw [aggGroupAfter, (pickNoon_eq_none_iff _).mpr h]

/-- Test fixture: a record whose validTime hour is 12. -/
def sampleNoon : SmhiForecast :=
  ⟨5, 5, 5, 80, 1000, 5, 50, 1, 180, 2, 10, 5, 1, 1, 3, ⟨2025, 1, 1, 12, 0, 0⟩⟩

/-- Test fixture: a record whose validTime hour is 6. -/
def sampleMorning : SmhiForecast :=
  ⟨5, 5, 5, 80, 1000, 5, 50, 1, 180, 2, 10, 5, 1, 1, 3, ⟨2025, 1, 1, 6, 0, 0⟩⟩

/-- Witness for C4: both branches of the corrected statement at concrete
one-record groups. -/
theorem C4_representative_alias_witness :
    aggGroupAfter [sampleNoon] = [sampleNoon] ∧
    aggGroupAfter [sampleMorning] =
      [applyAgg sampleMorning (dayTempMax [sampleMorning]) (dayTempMin [sampleMorning])
        (dayTotalPrecip [sampleMorning])] :=
  ⟨(C4_representative_alias sampleNoon []).1 ⟨sampleNoon, by simp, by decide⟩,
   (C4_representative_alias sampleMorning []).2 (by decide)⟩

theorem except_bind_ok {ε α β : Type} (a : α) (g : α → Except ε β) :
    (Except.ok a >>= g) = g a := rfl

theorem except_bind_error {ε α β : Type} (err : ε) (g : α → Except ε β) :
    ((Except.error err : Except ε α) >>= g) = Except.error err := rfl

theorem except_map_ok {ε α β : Type} (g : α → β) (a : α) :
    (Except.ok a : Except ε α).map g = .ok (g a) := rfl

theorem except_map_error {ε α β : Type} (g : α → β) (err : ε) :
    (Except.error err : Except ε α).map g = .error err := rfl

theorem mkForecast_temperature (v : ScratchVals) (vt : Timestamp) (hrs : ℚ) :
    (mkForecast v vt hrs).temperature = pyRound v.t := rfl

theorem mkForecast_valid_time (v : ScratchVals) (vt : Timestamp) (hrs : ℚ) :
    (mkForecast v vt hrs).valid_time = vt := rfl

theorem applyAgg_valid_time (f : SmhiForecast) (a b : ℤ) (c : ℚ) :
    (applyAgg f a b c).valid_time = f.valid_time := rfl

theorem readScratch_some {s : Scratch} {v : ScratchVals} (h : readScratch s = some v) :
    s.temperature = some v.t ∧ s.mean_precipitation = some v.pm := by
  rw [readScratch] at h
  split at h
  · rw [Option.some.injEq] at h
    subst h
    simp_all
  · exact absurd h (by simp)

theorem processOne_ok {s : Scratch} {carried : ℚ} {lastTime : Option Timestamp}
    {e : ApiEntry} {f : SmhiForecast} {s2 : Scratch} {hrs : ℚ}
    (h : processOne s carried lastTime e = .ok (f, s2, hrs)) :
    e.parameters.foldlM updateScratch s = .ok s2 ∧
    ∃ v, readScratch s2 = some v ∧
      hrs = hoursSince carried lastTime e.validTime ∧
      f = mkForecast v e.validTime hrs := by
  rw [processOne] at h
  split at h
  · exact absurd h (by simp)
  · rename_i s3 heqfold
    split at h
    · exact absurd h (by simp)
    · rename_i v heqread
      simp only [Except.ok.injEq, Prod.mk.injEq] at h
      obtain ⟨hf, hs, hh⟩ := h
      subst hs
      subst hh
      exact ⟨heqfold, v, heqread, rfl, hf.symm⟩

/-- The invariant every stored day group satisfies: it is nonempty and all
its members carry the group's day-of-month key. -/
def GroupOk (g : ℕ × List SmhiForecast) : Prop :=
  g.2 ≠ [] ∧ ∀ f ∈ g.2, f.valid_time.day = g.1

theorem odAppend_groupOk {od : List (ℕ × List SmhiForecast)} {d : ℕ} {f : SmhiForecast}
    (hod : ∀ g ∈ od, GroupOk g) (hf : f.valid_time.day = d) :
    ∀ g ∈ odAppend od d f, GroupOk g := by
  induction od with
  | nil =>
    intro g hg
    rw [odAppend] at hg
    rcases List.mem_singleton.mp hg with rfl
    exact ⟨by simp, by simpa using hf⟩
  | cons g0 rest ih =>
    intro g hg
    obtain ⟨d0, fs0⟩ := g0
    rw [odAppend] at hg
    by_cases hd : d0 = d
    · rw [if_pos hd] at hg
      rcases List.mem_cons.mp hg with rfl | hmem
      · have h0 := hod (d0, fs0) (List.mem_cons_self _ _)
        refine ⟨by simp, ?_⟩
        intro x hx
        rcases List.mem_append.mp hx with hx | hx
        · exact h0.2 x hx
        · rcases List.mem_singleton.mp hx with rfl
          rw [hf, hd]
      · exact hod g (List.mem_cons_of_mem _ hmem)
    · rw [if_neg hd] at hg
      rcases List.mem_cons.mp hg with rfl | hmem
      · exact hod _ (List.mem_cons_self _ _)
      · exact ih (fun g' hg' => hod g' (List.mem_cons_of_mem _ hg')) g hmem

theorem processEntries_groupOk {ts : List ApiEntry} :
    ∀ {s : Scratch} {c : ℚ} {lt : Option Timestamp}
      {od od' : List (ℕ × List SmhiForecast)},
      processEntries ts s c lt od = .ok od' →
      (∀ g ∈ od, GroupOk g) → ∀ g ∈ od', GroupOk g := by
  induction ts with
  | nil =>
    intro s c lt od od' h hod
    rw [processEntries] at h
    simp only [Except.ok.injEq] at h
    exact h ▸ hod
  | cons e ts ih =>
    intro s c lt od od' h hod
    rw [processEntries] at h
    cases hp : processOne s c lt e with
    | error err => rw [hp] at h; exact absurd h (by simp)
    | ok t =>
      obtain ⟨f, s2, hrs⟩ := t
      rw [hp] at h
      obtain ⟨-, v, -, -, hf⟩ := processOne_ok hp
      have hday : f.valid_time.day = e.validTime.day := by
        rw [hf, mkForecast_valid_time]
      exact ih h (odAppend_groupOk hod hday)

/-- The keys of the day dict, in insertion order. -/
def dayKeys (od : List (ℕ × List SmhiForecast)) : List ℕ :=
  od.map Prod.fst

/-- Spec-language day bookkeeping: append a day to the list of seen days
unless it is already present. -/
def insertDay (acc : List ℕ) (d : ℕ) : List ℕ :=
  if d ∈ acc then acc else acc ++ [d]

/-- Spec-language counterpart of the day grouping: the distinct
day-of-month values of the entries, in order of first encounter. -/
def distinctDays (ts : List ApiEntry) : List ℕ :=
  ts.foldl (fun acc e => insertDay acc e.validTime.day) []

theorem odAppend_keys (od : List (ℕ × List SmhiForecast)) (d : ℕ) (f : SmhiForecast) :
    dayKeys (odAppend od d f) = insertDay (dayKeys od) d := by
  induction od with
  | nil => simp [odAppend, dayKeys, insertDay]
  | cons g0 rest ih =>
    obtain ⟨d0, fs0⟩ := g0
    rw [odAppend]
    by_cases hd : d0 = d
    · rw [if_pos hd, insertDay, if_pos (by simp [dayKeys, hd])]
      simp [dayKeys]
    · rw [if_neg hd]
      have hk : dayKeys ((d0, fs0) :: odAppend rest d f) = d0 :: dayKeys (odAppend rest d f) := rfl
      have hk2 : dayKeys ((d0, fs0) :: rest) = d0 :: dayKeys rest := rfl
      rw [hk, ih, hk2]
      by_cases hmem : d ∈ dayKeys rest
      · rw [insertDay, if_pos hmem, insertDay, if_pos (List.mem_cons_of_mem d0 hmem)]
      · have hno : d ∉ d0 :: dayKeys rest := by
          intro hc
          rcases List.mem_cons.mp hc with h | h
          · exact hd h.symm
          · exact hmem h
        rw [insertDay, if_neg hmem, insertDay, if_neg hno]
        simp

theorem processEntries_keys {ts : List ApiEntry} :
    ∀ {s : Scratch} {c : ℚ} {lt : Option Timestamp}
      {od od' : List (ℕ × List SmhiForecast)},
      processEntries ts s c lt od = .ok od' →
      dayKeys od' = ts.foldl (fun acc e => insertDay acc e.validTime.day) (dayKeys od) := by
  induction ts with
  | nil =>
    intro s c lt od od' h
    rw [processEntries] at h
    simp only [Except.ok.injEq] at h
    rw [← h, List.foldl_nil]
  | cons e ts ih =>
    intro s c lt od od' h
    rw [processEntries] at h
    cases hp : processOne s c lt e with
    | error err => rw [hp] at h; exact absurd h (by simp)
    | ok t =>
      obtain ⟨f, s2, hrs⟩ := t
      rw [hp] at h
      rw [List.foldl_cons, ← odAppend_keys od e.validTime.day f]
      exact ih h

theorem dayRep_mean (f0 : SmhiForecast) (rest : List SmhiForecast) :
    (dayRep f0 rest).mean_precipitation = (dayRep f0 rest).total_precipitation / 24 := rfl

theorem dayRep_day {d : ℕ} {f0 : SmhiForecast} {rest : List SmhiForecast}
    (hok : GroupOk (d, f0 :: rest)) : (dayRep f0 rest).valid_time.day = d := by
  rw [dayRep, applyAgg_valid_time]
  cases h : pickNoon (f0 :: rest) with
  | none => rw [Option.getD_none]; exact hok.2 f0 (List.mem_cons_self _ _)
  | some x => rw [Option.getD_some]; exact hok.2 x (pickNoon_mem h)

theorem groupOk_shape {d : ℕ} {fs : List SmhiForecast} (h : GroupOk (d, fs)) :
    ∃ f0 fs', fs = f0 :: fs' := by
  rcases fs with _ | ⟨a, l⟩
  · exact absurd rfl h.1
  · exact ⟨a, l, rfl⟩

theorem buildOutput_true_cons (d : ℕ) (f0 : SmhiForecast) (fs : List SmhiForecast)
    (rest : List (ℕ × List SmhiForecast)) :
    buildOutput true ((d, f0 :: fs) :: rest) =
      f0 :: dayRep f0 fs :: buildOutput false rest := by
  rw [buildOutput, aggOut_cons]
  simp

theorem buildOutput_false_rep {od : List (ℕ × List SmhiForecast)}
    (hok : ∀ g ∈ od, GroupOk g) :
    List.Forall₂ (fun rep g => ∃ f0 rest, g.2 = f0 :: rest ∧ rep = dayRep f0 rest)
      (buildOutput false od) od := by
  induction od with
  | nil => exact List.Forall₂.nil
  | cons g rest ih =>
    obtain ⟨d, fs⟩ := g
    obtain ⟨f0, fs', rfl⟩ := groupOk_shape (hok (d, fs) (List.mem_cons_self _ _))
    rw [buildOutput, aggOut_cons]
    simp only [Bool.false_eq_true, if_false, List.nil_append, List.cons_append,
      List.nil_append]
    exact List.Forall₂.cons ⟨f0, fs', rfl, rfl⟩
      (ih fun g' hg' => hok g' (List.mem_cons_of_mem _ hg'))

theorem buildOutput_false_days {od : List (ℕ × List SmhiForecast)}
    (hok : ∀ g ∈ od, GroupOk g) :
    (buildOutput false od).map (fun f => f.valid_time.day) = dayKeys od := by
  induction od with
  | nil => rfl
  | cons g rest ih =>
    obtain ⟨d, fs⟩ := g
    obtain ⟨f0, fs', rfl⟩ := groupOk_shape (hok (d, fs) (List.mem_cons_self _ _))
    rw [buildOutput, aggOut_cons]
    simp only [Bool.false_eq_true, if_false, List.nil_append, List.cons_append,
      List.map_cons]
    rw [dayRep_day (hok (d, f0 :: fs') (List.mem_cons_self _ _)),
      ih fun g' hg' => hok g' (List.mem_cons_of_mem _ hg')]
    rfl

theorem forall₂_mem_left {α β : Type} {R : α → β → Prop} {l : List α} {l' : List β}
    (h : List.Forall₂ R l l') : ∀ x ∈ l, ∃ y ∈ l', R x y := by
  induction h with
  | nil => intro x hx; exact absurd hx (List.not_mem_nil x)
  | cons hR hrest ih =>
    intro x hx
    rcases List.mem_cons.mp hx with rfl | hx
    · exact ⟨_, List.mem_cons_self _ _, hR⟩
    · obtain ⟨y, hy, hxy⟩ := ih x hx
      exact ⟨y, List.mem_cons_of_mem _ hy, hxy⟩

theorem get_all_groupOk {r : ApiResult} {od : List (ℕ × List SmhiForecast)}
    (hget : _get_all_forecast_from_api r = .ok od) : ∀ g ∈ od, GroupOk g := by
  rw [_get_all_forecast_from_api] at hget
  split at hget
  · exact absurd hget (by simp)
  · exact processEntries_groupOk hget (by simp)

/-- C10 (confirmed): every aggregated day entry of the output (every
output element after the prepended current-conditions copy) stores
mean_precipitation equal to its stored total_precipitation divided by 24,
exactly. -/
theorem C10_mean_precipitation (r : ApiResult) (out : List SmhiForecast)
    (hout : _get_forecast r = .ok out) :
    ∀ f ∈ out.drop 1, f.mean_precipitation = f.total_precipitation / 24 := by
  rw [_get_forecast] at hout
  cases hget : _get_all_forecast_from_api r with
  | error err => rw [hget] at hout; exact absurd hout (by simp)
  | ok od =>
    rw [hget] at hout
    simp only [Except.ok.injEq] at hout
    subst hout
    have hok := get_all_groupOk hget
    rcases od with _ | ⟨⟨d, fs⟩, rest⟩
    · intro f hf
      exact absurd hf (by simp [buildOutput])
    · obtain ⟨f0, fs', rfl⟩ := groupOk_shape (hok (d, fs) (List.mem_cons_self _ _))
      rw [buildOutput_true_cons]
      intro f hf
      rw [List.drop_one, List.tail_cons] at hf
      rcases List.mem_cons.mp hf with rfl | hf
      · exact dayRep_mean f0 fs'
      · obtain ⟨g, _, f1, rest1, _, hrep⟩ :=
          forall₂_mem_left
            (buildOutput_false_rep fun g' hg' => hok g' (List.mem_cons_of_mem _ hg'))
            f hf
        rw [hrep]
        exact dayRep_mean f1 rest1

/-- Test fixture: three full entries spanning two calendar days, with an
hour-12 entry on the first day only. -/
def tsMain : List ApiEntry :=
  [⟨⟨2025, 1, 1, 0, 0, 0⟩, mkAllParams (14/10) 80 1000 5 4 3 1 1 (5/2) 180 10 5⟩,
   ⟨⟨2025, 1, 1, 12, 0, 0⟩, mkAllParams (36/10) 80 1000 5 4 3 1 (1/4) (5/2) 180 10 5⟩,
   ⟨⟨2025, 1, 2, 6, 0, 0⟩, mkAllParams (-5/2) 80 1000 5 4 3 1 (1/5) (5/2) 180 10 5⟩]

/-- Test fixture: the api result holding tsMain. -/
def inputMain : ApiResult := ⟨some tsMain⟩

/-- Witness for C10: the mean/total relation holds on every aggregated
entry of the concrete run on inputMain. -/
theorem C10_mean_precipitation_witness :
    ((okOutput inputMain).drop 1).Forall
      (fun f => f.mean_precipitation = f.total_precipitation / 24) :=
  List.forall_iff_forall_mem.mpr
    (C10_mean_precipitation inputMain (okOutput inputMain) (by with_unfolding_all rfl))

theorem insertDay_length_le (acc : List ℕ) (d : ℕ) :
    acc.length ≤ (insertDay acc d).length := by
  rw [insertDay]
  split
  · exact le_refl _
  · simp

theorem foldl_insertDay_length (ts : List ApiEntry) :
    ∀ acc : List ℕ,
      acc.length ≤ (ts.foldl (fun acc e => insertDay acc e.validTime.day) acc).length := by
  induction ts with
  | nil => intro acc; exact le_refl _
  | cons e ts ih =>
    intro acc
    rw [List.foldl_cons]
    exact le_trans (insertDay_length_le acc e.validTime.day) (ih _)

theorem distinctDays_ne_nil {ts : List ApiEntry} (h : ts ≠ []) : distinctDays ts ≠ [] := by
  rcases ts with _ | ⟨e, ts'⟩
  · exact absurd rfl h
  · rw [distinctDays, List.foldl_cons]
    intro hc
    have hlen := foldl_insertDay_length ts' (insertDay [] e.validTime.day)
    rw [hc] at hlen
    simp [insertDay] at hlen

/-- C6 (confirmed): for every valid input (timeSeries present and
nonempty, transform succeeds) the output length is 1 plus the number of
distinct day groups, and the aggregated entries after the prepended
current-conditions copy carry the distinct day values in the order the
days were first encountered in the input stream. -/
theorem C6_output_shape (r : ApiResult) (ts : List ApiEntry) (out : List SmhiForecast)
    (hts : r.timeSeries = some ts) (hne : ts ≠ [])
    (hout : _get_forecast r = .ok out) :
    out.length = 1 + (distinctDays ts).length ∧
    (out.drop 1).map (fun f => f.valid_time.day) = distinctDays ts := by
  rw [_get_forecast] at hout
  cases hget : _get_all_forecast_from_api r with
  | error err => rw [hget] at hout; exact absurd hout (by simp)
  | ok od =>
    rw [hget] at hout
    simp only [Except.ok.injEq] at hout
    subst hout
    have hok := get_all_groupOk hget
    have hkeys : dayKeys od = distinctDays ts := by
      rw [_get_all_forecast_from_api, hts] at hget
      exact processEntries_keys hget
    have hodne : od ≠ [] := by
      intro hnil
      subst hnil
      exact distinctDays_ne_nil hne (by simpa [dayKeys] using hkeys)
    rcases od with _ | ⟨⟨d, fs⟩, rest⟩
    · exact absurd rfl hodne
    · obtain ⟨f0, fs', rfl⟩ := groupOk_shape (hok (d, fs) (List.mem_cons_self _ _))
      rw [buildOutput_true_cons]
      have hlen :=
        (buildOutput_false_rep
          (fun g' hg' => hok g' (List.mem_cons_of_mem _ hg'))).length_eq
      constructor
      · rw [← hkeys]
        simp [dayKeys, hlen, Nat.add_comm]
      · rw [List.drop_one, List.tail_cons, List.map_cons,
          dayRep_day (hok (d, f0 :: fs') (List.mem_cons_self _ _)),
          buildOutput_false_days (fun g' hg' => hok g' (List.mem_cons_of_mem _ hg')),
          ← hkeys]
        rfl

/-- Witness for C6: the concrete run on inputMain (three entries over two
days) has output length 3 = 1 + 2 and aggregated day order [1, 2]. -/
theorem C6_output_shape_witness :
    (okOutput inputMain).length = 1 + (distinctDays tsMain).length ∧
    ((okOutput inputMain).drop 1).map (fun f => f.valid_time.day) = distinctDays tsMain :=
  C6_output_shape inputMain tsMain (okOutput inputMain) rfl
    (by with_unfolding_all decide) (by with_unfolding_all rfl)

/-- Spec-language maximum of the raw per-entry rounded temperatures of a
nonempty day group. -/
def rawTempMax (f0 : SmhiForecast) (rest : List SmhiForecast) : ℤ :=
  rest.foldl (fun a f => max a f.temperature) f0.temperature

/-- Spec-language minimum of the raw per-entry rounded temperatures of a
nonempty day group. -/
def rawTempMin (f0 : SmhiForecast) (rest : List SmhiForecast) : ℤ :=
  rest.foldl (fun a f => min a f.temperature) f0.temperature

theorem if_lt_max (a t : ℤ) : (if a < t then t else a) = max a t := by
  rcases lt_or_ge a t with h | h
  · rw [if_pos h, max_eq_right (le_of_lt h)]
  · rw [if_neg (not_lt.mpr h), max_eq_left h]

theorem if_lt_min (a t : ℤ) : (if t < a then t else a) = min a t := by
  rcases lt_or_ge t a with h | h
  · rw [if_pos h, min_eq_right (le_of_lt h)]
  · rw [if_neg (not_lt.mpr h), min_eq_left h]

theorem foldl_ifmax_eq (l : List SmhiForecast) :
    ∀ a : ℤ, l.foldl (fun a f => if a < f.temperature then f.temperature else a) a =
      l.foldl (fun a f => max a f.temperature) a := by
  induction l with
  | nil => intro a; rfl
  | cons f l ih =>
    intro a
    rw [List.foldl_cons, List.foldl_cons, if_lt_max, ih]

theorem foldl_ifmin_eq (l : List SmhiForecast) :
    ∀ a : ℤ, l.foldl (fun a f => if f.temperature < a then f.temperature else a) a =
      l.foldl (fun a f => min a f.temperature) a := by
  induction l with
  | nil => intro a; rfl
  | cons f l ih =>
    intro a
    rw [List.foldl_cons, List.foldl_cons, if_lt_min, ih]

theorem dayTempMax_eq {f0 : SmhiForecast} (rest : List SmhiForecast)
    (h : -100 ≤ f0.temperature) : dayTempMax (f0 :: rest) = rawTempMax f0 rest := by
  rw [dayTempMax, List.foldl_cons, foldl_ifmax_eq, if_lt_max, max_eq_right h]
  rfl

theorem dayTempMin_eq {f0 : SmhiForecast} (rest : List SmhiForecast)
    (h : f0.temperature ≤ 100) : dayTempMin (f0 :: rest) = rawTempMin f0 rest := by
  rw [dayTempMin, List.foldl_cons, foldl_ifmin_eq, if_lt_min, min_eq_right h]
  rfl

theorem le_foldl_max (l : List SmhiForecast) :
    ∀ a : ℤ, a ≤ l.foldl (fun x f => max x f.temperature) a := by
  induction l with
  | nil => intro a; exact le_refl _
  | cons f l ih =>
    intro a
    rw [List.foldl_cons]
    exact le_trans (le_max_left _ _) (ih _)

theorem foldl_min_le (l : List SmhiForecast) :
    ∀ a : ℤ, l.foldl (fun x f => min x f.temperature) a ≤ a := by
  induction l with
  | nil => intro a; exact le_refl _
  | cons f l ih =>
    intro a
    rw [List.foldl_cons]
    exact le_trans (ih _) (min_le_left _ _)

theorem rawTempMin_le_rawTempMax (f0 : SmhiForecast) (rest : List SmhiForecast) :
    rawTempMin f0 rest ≤ rawTempMax f0 rest :=
  le_trans (foldl_min_le rest f0.temperature) (le_foldl_max rest f0.temperature)

theorem dayRep_temperature_max (f0 : SmhiForecast) (rest : List SmhiForecast) :
    (dayRep f0 rest).temperature_max = dayTempMax (f0 :: rest) := rfl

theorem dayRep_temperature_min (f0 : SmhiForecast) (rest : List SmhiForecast) :
    (dayRep f0 rest).temperature_min = dayTempMin (f0 :: rest) := rfl

theorem dayRep_bounds {f0 : SmhiForecast} {rest : List SmhiForecast}
    (hb : ∀ f ∈ f0 :: rest, -100 ≤ f.temperature ∧ f.temperature ≤ 100) :
    (dayRep f0 rest).temperature_min ≤ (dayRep f0 rest).temperature_max ∧
    rawTempMin f0 rest ≤ (dayRep f0 rest).temperature_min ∧
    (dayRep f0 rest).temperature_min ≤ rawTempMax f0 rest ∧
    rawTempMin f0 rest ≤ (dayRep f0 rest).temperature_max ∧
    (dayRep f0 rest).temperature_max ≤ rawTempMax f0 rest := by
  have h0 := hb f0 (List.mem_cons_self _ _)
  rw [dayRep_temperature_max, dayRep_temperature_min,
    dayTempMax_eq rest h0.1, dayTempMin_eq rest h0.2]
  exact ⟨rawTempMin_le_rawTempMax f0 rest, le_refl _, rawTempMin_le_rawTempMax f0 rest,
    rawTempMin_le_rawTempMax f0 rest, le_refl _⟩

theorem forall₂_imp_mem {α β : Type} {R S : α → β → Prop} {l : List α} {l' : List β}
    (h : List.Forall₂ R l l') (himp : ∀ x y, y ∈ l' → R x y → S x y) :
    List.Forall₂ S l l' := by
  induction h with
  | nil => exact List.Forall₂.nil
  | cons hR hrest ih =>
    exact List.Forall₂.cons (himp _ _ (List.mem_cons_self _ _) hR)
      (ih fun x y hy hR' => himp x y (List.mem_cons_of_mem _ hy) hR')

/-- Test fixture for C7: a single entry whose temperature 150 lies above
the sentinel 100.0 the day loop starts its running minimum at. -/
def inputC7 : ApiResult :=
  ⟨some [⟨⟨2025, 1, 1, 6, 0, 0⟩, mkAllParams 150 80 1000 5 4 3 1 1 (5/2) 180 10 5⟩]⟩

/-- C7 counterexample: for inputC7 the only raw rounded temperature of the
day is 150, so the claim requires both aggregate temperatures to lie in
[150, 150]; but the aggregated entry stores temperature_min = 100 (the
loop's sentinel initial value 100.0 never updated, because no temperature
is below it), which is not between 150 and 150. -/
theorem C7_counterexample :
    ((_get_forecast inputC7).toOption.map fun l => l.map fun f =>
      (f.temperature, f.temperature_max, f.temperature_min)) =
      some [(150, 150, 150), (150, 150, 100)] ∧ ¬ (150 ≤ (100 : ℤ)) := by
  constructor
  · with_unfolding_all decide
  · decide

/-- C7 (corrected): provided every rounded per-entry temperature lies in
the sentinel range [-100, 100], every aggregated day entry satisfies
temperature_min <= temperature_max with both bounded between the minimum
and maximum of the day's raw rounded temperatures (the aggregated entries
are paired with their day groups positionally). Outside that range the
sentinels -100.0 / 100.0 can win the running comparisons and the bounds
fail, as the counterexample shows. -/
theorem C7_temperature_bounds (r : ApiResult) (od : List (ℕ × List SmhiForecast))
    (out : List SmhiForecast)
    (hget : _get_all_forecast_from_api r = .ok od)
    (hout : _get_forecast r = .ok out)
    (hbound : ∀ g ∈ od, ∀ f ∈ g.2, -100 ≤ f.temperature ∧ f.temperature ≤ 100) :
    List.Forall₂ (fun rep g => ∃ f0 rest, g.2 = f0 :: rest ∧
      rep.temperature_min ≤ rep.temperature_max ∧
      rawTempMin f0 rest ≤ rep.temperature_min ∧
      rep.temperature_min ≤ rawTempMax f0 rest ∧
      rawTempMin f0 rest ≤ rep.temperature_max ∧
      rep.temperature_max ≤ rawTempMax f0 rest)
      (out.drop 1) od := by
  rw [_get_forecast, hget] at hout
  simp only [Except.ok.injEq] at hout
  subst hout
  have hok := get_all_groupOk hget
  rcases od with _ | ⟨⟨d, fs⟩, rest⟩
  · exact List.Forall₂.nil
  · obtain ⟨f0, fs', rfl⟩ := groupOk_shape (hok (d, fs) (List.mem_cons_self _ _))
    rw [buildOutput_true_cons, List.drop_one, List.tail_cons]
    refine List.Forall₂.cons
      ⟨f0, fs', rfl, dayRep_bounds (hbound (d, f0 :: fs') (List.mem_cons_self _ _))⟩ ?_
    refine forall₂_imp_mem
      (buildOutput_false_rep fun g' hg' => hok g' (List.mem_cons_of_mem _ hg')) ?_
    rintro x g hg ⟨f1, rest1, hg2, hx⟩
    refine ⟨f1, rest1, hg2, ?_⟩
    rw [hx]
    refine dayRep_bounds ?_
    intro f hf
    exact hbound g (List.mem_cons_of_mem _ hg) f (hg2 ▸ hf)

/-- Witness for C7: the corrected statement at the concrete run on
inputMain, whose rounded temperatures 1, 4, -2 all lie in [-100, 100]. -/
theorem C7_temperature_bounds_witness :
    List.Forall₂ (fun rep g => ∃ f0 rest, g.2 = f0 :: rest ∧
      rep.temperature_min ≤ rep.temperature_max ∧
      rawTempMin f0 rest ≤ rep.temperature_min ∧
      rep.temperature_min ≤ rawTempMax f0 rest ∧
      rawTempMin f0 rest ≤ rep.temperature_max ∧
      rep.temperature_max ≤ rawTempMax f0 rest)
      ((okOutput inputMain).drop 1) (okGroups inputMain) :=
  C7_temperature_bounds inputMain (okGroups inputMain) (okOutput inputMain)
    (by with_unfolding_all rfl) (by with_unfolding_all rfl)
    (by with_unfolding_all decide)

theorem processEntries_head {ts : List ApiEntry} :
    ∀ {s : Scratch} {c : ℚ} {lt : Option Timestamp} {d : ℕ} {x : SmhiForecast}
      {fs0 : List SmhiForecast} {rest od' : List (ℕ × List SmhiForecast)},
      processEntries ts s c lt ((d, x :: fs0) :: rest) = .ok od' →
      ∃ fs1 rest', od' = (d, x :: fs1) :: rest' := by
  induction ts with
  | nil =>
    intro s c lt d x fs0 rest od' h
    rw [processEntries] at h
    simp only [Except.ok.injEq] at h
    exact ⟨fs0, rest, h.symm⟩
  | cons e ts ih =>
    intro s c lt d x fs0 rest od' h
    rw [processEntries] at h
    split at h
    · exact absurd h (by simp)
    · rw [odAppend] at h
      by_cases hd : d = e.validTime.day
      · rw [if_pos hd, List.cons_append] at h
        exact ih h
      · rw [if_neg hd] at h
        exact ih h

/-- C8 (confirmed): for every valid input the first output element is the
parsed record of the first input entry, taken as a value copy before the
aggregation pass: the per-day aggregation (including the fallback branch
that mutates a stored sample in place) never changes it, because the
prepended element is a deep copy made before the day loop writes
anything. -/
theorem C8_first_output (r : ApiResult) (e0 : ApiEntry) (ts : List ApiEntry)
    (f0 : SmhiForecast) (s2 : Scratch) (hrs : ℚ) (out : List SmhiForecast)
    (hts : r.timeSeries = some (e0 :: ts))
    (hp : processOne initScratch 1 none e0 = .ok (f0, s2, hrs))
    (hout : _get_forecast r = .ok out) :
    out.head? = some f0 := by
  rw [_get_forecast] at hout
  cases hget : _get_all_forecast_from_api r with
  | error err => rw [hget] at hout; exact absurd hout (by simp)
  | ok od =>
    rw [hget] at hout
    simp only [Except.ok.injEq] at hout
    subst hout
    rw [_get_all_forecast_from_api] at hget
    split at hget
    · exact absurd hget (by simp)
    rename_i ts2 hts2
    rw [hts, Option.some.injEq] at hts2
    subst hts2
    rw [processEntries] at hget
    split at hget
    · exact absurd hget (by simp)
    · rename_i f1 s21 hrs1 heq
      rw [hp] at heq
      simp only [Except.ok.injEq, Prod.mk.injEq] at heq
      obtain ⟨hf1, hs21, hh1⟩ := heq
      subst hf1
      subst hs21
      subst hh1
      simp only [odAppend] at hget
      obtain ⟨fs1, rest', rfl⟩ := processEntries_head hget
      rw [buildOutput_true_cons]
      rfl

/-- Test fixture: the first entry of tsMain. -/
def entAMain : ApiEntry :=
  ⟨⟨2025, 1, 1, 0, 0, 0⟩, mkAllParams (14/10) 80 1000 5 4 3 1 1 (5/2) 180 10 5⟩

/-- Test fixture: the record, scratch state and hours value the per-entry
step produces on entAMain from the initial state. -/
def procMain : SmhiForecast × Scratch × ℚ :=
  match processOne initScratch 1 none entAMain with
  | .ok t => t
  | .error _ => (sampleNoon, initScratch, 0)

/-- Witness for C8: the first output element of the concrete run on
inputMain is exactly the parsed record of its first entry. -/
theorem C8_first_output_witness : (okOutput inputMain).head? = some procMain.1 :=
  C8_first_output inputMain entAMain (tsMain.drop 1) procMain.1 procMain.2.1 procMain.2.2
    (okOutput inputMain) (by with_unfolding_all rfl) (by with_unfolding_all rfl)
    (by with_unfolding_all rfl)

theorem except_map_ok_inj {ε α β : Type} {x : Except ε α} {g : α → β} {b : β}
    (h : x.map g = .ok b) : ∃ a, x = .ok a ∧ g a = b := by
  cases x with
  | error e => exact absurd h (fun hc => Except.noConfusion hc)
  | ok a => exact ⟨a, rfl, Except.ok.inj h⟩

theorem updateScratch_temperature {s s2 : Scratch} {p : Param}
    (hname : p.name ≠ "t") (hupd : updateScratch s p = .ok s2) :
    s2.temperature = s.temperature := by
  rw [updateScratch, if_neg hname] at hupd
  by_cases h1 : p.name = "r"
  · rw [if_pos h1] at hupd
    obtain ⟨v, -, hgv⟩ := except_map_ok_inj hupd
    rw [← hgv]
  · rw [if_neg h1] at hupd
    by_cases h2 : p.name = "msl"
    · rw [if_pos h2] at hupd
      obtain ⟨v, -, hgv⟩ := except_map_ok_inj hupd
      rw [← hgv]
    · rw [if_neg h2] at hupd
      by_cases h3 : p.name = "tstm"
      · rw [if_pos h3] at hupd
        obtain ⟨v, -, hgv⟩ := except_map_ok_inj hupd
        rw [← hgv]
      · rw [if_neg h3] at hupd
        by_cases h4 : p.name = "tcc_mean"
        · rw [if_pos h4] at hupd
          obtain ⟨v, -, hgv⟩ := except_map_ok_inj hupd
          rw [← hgv]
          dsimp only
          split <;> rfl
        · rw [if_neg h4] at hupd
          by_cases h5 : p.name = "Wsymb2"
          · rw [if_pos h5] at hupd
            obtain ⟨v, -, hgv⟩ := except_map_ok_inj hupd
            rw [← hgv]
          · rw [if_neg h5] at hupd
            by_cases h6 : p.name = "pcat"
            · rw [if_pos h6] at hupd
              obtain ⟨v, -, hgv⟩ := except_map_ok_inj hupd
              rw [← hgv]
            · rw [if_neg h6] at hupd
              by_cases h7 : p.name = "pmean"
              · rw [if_pos h7] at hupd
                obtain ⟨v, -, hgv⟩ := except_map_ok_inj hupd
                rw [← hgv]
              · rw [if_neg h7] at hupd
                by_cases h8 : p.name = "ws"
                · rw [if_pos h8] at hupd
                  obtain ⟨v, -, hgv⟩ := except_map_ok_inj hupd
                  rw [← hgv]
                · rw [if_neg h8] at hupd
                  by_cases h9 : p.name = "wd"
                  · rw [if_pos h9] at hupd
                    obtain ⟨v, -, hgv⟩ := except_map_ok_inj hupd
                    rw [← hgv]
                  · rw [if_neg h9] at hupd
                    by_cases h10 : p.name = "vis"
                    · rw [if_pos h10] at hupd
                      obtain ⟨v, -, hgv⟩ := except_map_ok_inj hupd
                      rw [← hgv]
                    · rw [if_neg h10] at hupd
                      by_cases h11 : p.name = "gust"
                      · rw [if_pos h11] at hupd
                        obtain ⟨v, -, hgv⟩ := except_map_ok_inj hupd
                        rw [← hgv]
                      · rw [if_neg h11] at hupd
                        rw [← Except.ok.inj hupd]

theorem foldParams_temperature {ps : List Param} :
    ∀ {s s2 : Scratch}, (∀ p ∈ ps, p.name ≠ "t") →
      ps.foldlM updateScratch s = .ok s2 → s2.temperature = s.temperature := by
  induction ps with
  | nil =>
    intro s s2 _ h
    rw [List.foldlM_nil] at h
    have hss : s = s2 := Except.ok.inj h
    rw [hss]
  | cons p ps ih =>
    intro s s2 hn h
    rw [List.foldlM_cons] at h
    cases hu : updateScratch s p with
    | error err => rw [hu, except_bind_error] at h; exact absurd h (by simp)
    | ok s3 =>
      rw [hu, except_bind_ok] at h
      rw [ih (fun q hq => hn q (List.mem_cons_of_mem _ hq)) h,
        updateScratch_temperature (hn p (List.mem_cons_self _ _)) hu]

/-- Test fixture for C5: a parameters list that carries all recognised
names except "t". -/
def paramsNoT : List Param :=
  [⟨"r", [70]⟩, ⟨"msl", [990]⟩, ⟨"tstm", [2]⟩, ⟨"tcc_mean", [2]⟩,
   ⟨"Wsymb2", [4]⟩, ⟨"pcat", [0]⟩, ⟨"pmean", [0]⟩, ⟨"ws", [3]⟩,
   ⟨"wd", [90]⟩, ⟨"vis", [8]⟩, ⟨"gust", [6]⟩]

/-- Test fixture for C5: a first entry with all parameters (temperature
5.4) followed by an entry missing the "t" parameter. -/
def inputC5 : ApiResult :=
  ⟨some [⟨⟨2025, 1, 1, 0, 0, 0⟩, mkAllParams (27/5) 80 1000 5 4 3 1 1 (5/2) 180 10 5⟩,
         ⟨⟨2025, 1, 1, 1, 0, 0⟩, paramsNoT⟩]⟩

/-- C5 counterexample: on inputC5 the second entry omits the "t"
parameter, yet the transform does not fail: it succeeds and the second
record silently reuses the first entry's temperature (both records store
temperature 5, while the second record's own humidity 70 shows it is
genuinely the second entry). -/
theorem C5_counterexample :
    ((_get_all_forecast_from_api inputC5).toOption.map fun od =>
      od.map fun g => g.2.map fun f => (f.temperature, f.humidity)) =
      some [[(5, 80), (5, 70)]] ∧
    (_get_all_forecast_from_api inputC5).toOption ≠ none := by
  constructor
  · with_unfolding_all decide
  · with_unfolding_all decide

/-- C5 (corrected): a missing recognised parameter aborts the transform
only when it has never been seen before (reading the never-assigned
scratch variable fails, e.g. on a first entry with no parameters at all);
a later entry that omits the parameter is processed successfully and the
most recently seen value is silently carried forward into its record
(shown here for the temperature parameter "t"). -/
theorem C5_missing_parameter :
    (∀ (vt : Timestamp) (rest : List ApiEntry),
      processEntries (⟨vt, []⟩ :: rest) initScratch 1 none [] = .error .nameError) ∧
    (∀ (s : Scratch) (c : ℚ) (lt : Option Timestamp) (e : ApiEntry)
        (f : SmhiForecast) (s2 : Scratch) (hrs : ℚ) (q : ℚ),
      (∀ p ∈ e.parameters, p.name ≠ "t") → s.temperature = some q →
      processOne s c lt e = .ok (f, s2, hrs) →
      f.temperature = pyRound q ∧ s2.temperature = some q) := by
  constructor
  · intro vt rest
    rfl
  · intro s c lt e f s2 hrs q hn hq hp
    obtain ⟨hfold, v, hread, -, hf⟩ := processOne_ok hp
    have ht : s2.temperature = s.temperature := foldParams_temperature hn hfold
    have hv := (readScratch_some hread).1
    rw [ht, hq, Option.some.injEq] at hv
    constructor
    · rw [hf, mkForecast_temperature, ← hv]
    · rw [ht, hq]

/-- Test fixture: a scratch state in which every variable has been
assigned, temperature most recently to 5.5. -/
def scratchFull : Scratch :=
  ⟨some (11/2), some 80, some 1000, some 5, some 50, some 3, some 1, some 1,
   some (5/2), some 180, some 10, some 5⟩

/-- Test fixture: an entry carrying paramsNoT. -/
def entryNoT : ApiEntry := ⟨⟨2025, 1, 1, 1, 0, 0⟩, paramsNoT⟩

/-- Test fixture: the step result on entryNoT from scratchFull. -/
def procNoT : SmhiForecast × Scratch × ℚ :=
  match processOne scratchFull 1 none entryNoT with
  | .ok t => t
  | .error _ => (sampleNoon, initScratch, 0)

/-- Witness for C5: a first entry with no parameters fails with the
unbound-name error, and the concrete no-"t" entry processed from
scratchFull keeps temperature 5.5. -/
theorem C5_missing_parameter_witness :
    processEntries [⟨⟨2025, 1, 1, 0, 0, 0⟩, []⟩] initScratch 1 none [] =
      .error .nameError ∧
    procNoT.1.temperature = pyRound (11/2) ∧ procNoT.2.1.temperature = some (11/2) := by
  refine ⟨C5_missing_parameter.1 ⟨2025, 1, 1, 0, 0, 0⟩ [], ?_⟩
  have h := C5_missing_parameter.2 scratchFull 1 none entryNoT
    procNoT.1 procNoT.2.1 procNoT.2.2 (11/2)
    (by with_unfolding_all decide) rfl (by with_unfolding_all rfl)
  exact h

/-- Test fixture for C2: two full entries 25 hours apart, both with mean
precipitation intensity 2.0. -/
def inputC2 : ApiResult :=
  ⟨some [⟨⟨2025, 1, 1, 0, 0, 0⟩, mkAllParams 1 80 1000 5 4 3 1 2 (5/2) 180 10 5⟩,
         ⟨⟨2025, 1, 2, 1, 0, 0⟩, mkAllParams 1 80 1000 5 4 3 1 2 (5/2) 180 10 5⟩]⟩

/-- C2 (code bug): the elapsed window uses the timedelta seconds
component, which drops whole days. On inputC2 the two entries are 25
hours (90000 seconds) apart, but the seconds component is 3600, so the
second record stores total_precipitation round(2 * 1.0, 2) = 2.0 where
the claim (and the source comment, which says total time in hours since
the last forecast) requires round(2 * 25.0, 2) = 50.0. -/
theorem C2_hours_window :
    epochSeconds ⟨2025, 1, 2, 1, 0, 0⟩ - epochSeconds ⟨2025, 1, 1, 0, 0, 0⟩ = 90000 ∧
    tdSeconds ⟨2025, 1, 2, 1, 0, 0⟩ ⟨2025, 1, 1, 0, 0, 0⟩ = 3600 ∧
    ((_get_all_forecast_from_api inputC2).toOption.map fun od =>
      od.map fun g => g.2.map fun f => f.total_precipitation) = some [[2], [2]] ∧
    pyRoundDigits (2 * 25) 2 = 50 := by
  refine ⟨by decide, by decide, ?_, ?_⟩
  · with_unfolding_all decide
  · with_unfolding_all decide
